import Mathlib

/-!
# Verification of the goja expression compiler (`compiler_expr.go`)

A shallow embedding of the parts of the expression compiler that the
claims concern: meta-property compilation, `delete` lowering, the
function-literal `length` computation, object-literal emission
(`__proto__` rule, shorthand restrictions), short-circuit constant
folding for `||`/`&&`, direct-`eval` scope marking, identifier
`delete` dispatch, the source-map accumulator, and r-value pattern
emission.

Instructions are modelled as an inductive `Instr`; every emitter is a
pure function returning the emitted instruction list (or a syntax
error via `Except String`).  Emission of sub-expressions whose
structure a claim does not depend on is represented by explicit
instruction lists carried in the corresponding node constructors.
-/

namespace GojaExpr

/-- Runtime values as far as the compiler observes them: literal pool
entries and the `ToBoolean` coercion used by constant folding. -/
inductive Value where
  | undef
  | nullv
  | bool (b : Bool)
  | num (n : Int)
  | str (s : String)
  deriving DecidableEq, Repr

/-- The `Value.ToBoolean` coercion as used by the constant folder. -/
def Value.toBoolean : Value → Bool
  | .undef => false
  | .nullv => false
  | .bool b => b
  | .num n => decide (n ≠ 0)
  | .str s => decide (s ≠ "")

/-- Binary operators of `compiledBinaryExpr` (the `token.*` cases of its
`emitGetter` switch). -/
inductive BinOp where
  | lt | gt | lte | gte | eq | neq | strictEq | strictNeq
  | add | sub | mul | div | mod | and | or | xor
  | instanceOf | inOp | sal | sar | shr
  deriving DecidableEq, Repr

/-- VM instructions emitted by the expression compiler (the subset the
claims are about).  `sub_ tag` stands for an arbitrary instruction
produced by a sub-expression whose internals a claim does not inspect. -/
inductive Instr where
  | loadVal (v : Value)
  | loadUndef
  | loadNil
  | loadNewTarget
  | loadDynamic (name : String)
  | pop
  | dup
  | jeq1 (off : Nat)
  | jneq1 (off : Nat)
  | jdef (off : Nat)
  | deleteGlobal (name : String)
  | deleteVar (name : String)
  | newObject
  | setProto
  | setProp1 (key : String)
  | setPropGetter (key : String)
  | setPropSetter (key : String)
  | toPropertyKey
  | setElem1
  | setElem1Named
  | setPropGetter1
  | setPropSetter1
  | copySpread
  | startVariadic
  | endVariadic
  | call (n : Nat)
  | callVariadic
  | callEval (n : Nat)
  | callEvalStrict (n : Nat)
  | callEvalVariadic
  | callEvalVariadicStrict
  | binop (op : BinOp)
  | throwConst
  | sub_ (tag : Nat)
  deriving DecidableEq, Repr

/-! ## C1: `compileMetaProperty` (compiler_expr.go:1389-1397) -/

/-- Result of `compileExpression` for the node kinds a claim needs to
distinguish: here only the `new.target` node. -/
inductive MetaResult where
  | newTarget
  deriving DecidableEq, Repr

/-- Translation of `compiler.compileMetaProperty`: given the meta identifier name and
the property identifier name of an `ast.MetaProperty`, return the
compiled node or throw.  Mirrors

```go
if v.Meta.Name == "new" || v.Property.Name != "target" {
    r := &compiledNewTarget{}
    ...
    return r
}
c.throwSyntaxError(int(v.Idx)-1, "Unsupported meta property: %s.%s", ...)
``` -/
def compileMetaProperty (meta property : String) : Except String MetaResult :=
  if meta == "new" || property != "target" then
    Except.ok MetaResult.newTarget
  else
    Except.error ("Unsupported meta property: " ++ meta ++ "." ++ property)

/-- Translation of `compiledNewTarget.emitGetter` (compiler_expr.go:1382-1387). -/
def newTargetEmitGetter (putOnStack : Bool) : List Instr :=
  if putOnStack then [Instr.loadNewTarget] else []

/-! ## C10: r-value pattern emission (compiler_expr.go:2171-2189) -/

/-- An `ast.ObjectPattern` / `ast.ArrayPattern` compiled in expression
(r-value) position; `subCode` is the code its sub-expressions would
emit if they were evaluated. -/
inductive AssignmentPattern where
  | objectPattern (subCode : List Instr)
  | arrayPattern (subCode : List Instr)
  deriving DecidableEq, Repr

/-- Translation of `compiledObjectAssignmentPattern.emitGetter` and
`compiledArrayAssignmentPattern.emitGetter`: both ignore the pattern
entirely and emit `loadUndef` iff `putOnStack`. -/
def assignmentPatternEmitGetter (pat : AssignmentPattern) (putOnStack : Bool) :
    List Instr :=
  match pat with
  | .objectPattern _ => if putOnStack then [Instr.loadUndef] else []
  | .arrayPattern _ => if putOnStack then [Instr.loadUndef] else []

/-! ## C2 / C7: `delete` lowering

`deleteExpr()` dispatch.  Reference expressions (identifier, dot,
bracket) override it; identifiers are handled separately below (C7).
Everything else inherits `baseCompiledExpr.deleteExpr`
(compiler_expr.go:292-298), except call expressions
(compiler_expr.go:2015-2021). -/

/-- Non-reference expressions as far as `deleteExpr` dispatch is
concerned.  `getterT`/`getterF` are the instruction sequences the
node's own `emitGetter` produces with `putOnStack` true/false. -/
inductive DExpr where
  /-- A `compiledLiteral`. -/
  | litE (v : Value)
  /-- A `compiledBinaryExpr`; the operand code lists are the (already
  folded) emissions of its two sides with `putOnStack = true`. -/
  | binaryE (leftCode rightCode : List Instr) (op : BinOp)
  /-- A `compiledCallExpr` with the given `emitGetter` output for
  `putOnStack` true / false. -/
  | callE (getterT getterF : List Instr)
  deriving DecidableEq, Repr

/-- The node's own `emitGetter`.  For `compiledBinaryExpr`
(compiler_expr.go:1685-1740): left, right, the operator instruction,
then `pop` when the value is not wanted. -/
def DExpr.emitGetter : DExpr → Bool → List Instr
  | .litE v, put => if put then [Instr.loadVal v] else []
  | .binaryE l r op, put =>
      l ++ r ++ [Instr.binop op] ++ (if put then [] else [Instr.pop])
  | .callE gT gF, put => if put then gT else gF

/-- Result of `deleteExpr()` on a non-reference expression. -/
inductive DeleteNode where
  /-- `constantExpr{val: valueTrue}` — what `baseCompiledExpr.deleteExpr`
  returns. -/
  | constTrue
  /-- `defaultDeleteExpr{expr: e}` — what `compiledCallExpr.deleteExpr`
  returns. -/
  | defaultDelete (e : DExpr)
  deriving DecidableEq, Repr

/-- The `deleteExpr()` dispatch on non-reference expressions: only
`compiledCallExpr` overrides the base implementation. -/
def DExpr.deleteExpr : DExpr → DeleteNode
  | .litE _ => .constTrue
  | .binaryE _ _ _ => .constTrue
  | e@(.callE _ _) => .defaultDelete e

/-- Emission of the node returned by `deleteExpr()`:
`constantExpr.emitGetter` (compiler_expr.go:310-315) pushes the
constant iff `putOnStack`; `defaultDeleteExpr.emitGetter`
(compiler_expr.go:192-197) evaluates the operand with
`putOnStack = false` and then pushes `true` iff `putOnStack`. -/
def DeleteNode.emitGetter : DeleteNode → Bool → List Instr
  | .constTrue, put => if put then [Instr.loadVal (Value.bool true)] else []
  | .defaultDelete e, put =>
      e.emitGetter false ++
        (if put then [Instr.loadVal (Value.bool true)] else [])

/-- Result of `compiledIdentifierExpr.deleteExpr`
(compiler_expr.go:482-509). -/
inductive IdentDeleteNode where
  /-- `deleteGlobalExpr{name}`. -/
  | delGlobal (name : String)
  /-- `deleteVarExpr{name}`. -/
  | delVar (name : String)
  /-- `compiledLiteral{val: valueFalse}`. -/
  | litFalse
  deriving DecidableEq, Repr

/-- Translation of `compiledIdentifierExpr.deleteExpr`: `bindingFound` and
`noDynamics` are the two components of `scope.lookupName(name)`
(defined outside this file's source). -/
def compiledIdentifierExprDeleteExpr (strict : Bool) (bindingFound : Bool)
    (noDynamics : Bool) (name : String) : Except String IdentDeleteNode :=
  if strict then
    Except.error "Delete of an unqualified identifier in strict mode"
  else if noDynamics then
    if !bindingFound then Except.ok (IdentDeleteNode.delGlobal name)
    else Except.ok IdentDeleteNode.litFalse
  else
    if !bindingFound then Except.ok (IdentDeleteNode.delVar name)
    else Except.ok IdentDeleteNode.litFalse

/-- Emission of the three node kinds `compiledIdentifierExpr.deleteExpr`
can return: `deleteGlobalExpr.emitGetter` (compiler_expr.go:740-750),
`deleteVarExpr.emitGetter` (compiler_expr.go:729-738), and
`compiledLiteral.emitGetter` (compiler_expr.go:824-829). -/
def IdentDeleteNode.emitGetter : IdentDeleteNode → Bool → List Instr
  | .delGlobal n, put => Instr.deleteGlobal n :: (if put then [] else [Instr.pop])
  | .delVar n, put => Instr.deleteVar n :: (if put then [] else [Instr.pop])
  | .litFalse, put => if put then [Instr.loadVal (Value.bool false)] else []

/-! ## C5: `||` / `&&` constant gating (compiler_expr.go:1597-1679) -/

/-- Expressions as far as the logical-operator constant gating is
concerned: literals, arbitrary non-constant expressions (with their
`emitGetter` output for `putOnStack` true / false), and the two
logical operators. -/
inductive LExpr where
  | lit (v : Value)
  | nonconst (getterT getterF : List Instr)
  | orE (l r : LExpr)
  | andE (l r : LExpr)
  deriving DecidableEq, Repr

/-- Modelled from the spec: `compiler.evalConst` runs the embedded eval
VM (`vm.go`, not part of the given source) on the emitted code of a
constant expression; for a `compiledLiteral` it returns the literal
value directly (compiler_expr.go:1463-1465).  Per §4.9/§8 the folded
result agrees with full evaluation, so on the `||`/`&&` fragment it is
the short-circuit evaluation; in this fragment a constant expression
never throws (the `Except` error case is therefore unreachable here
but kept because `constant()` branches on it). -/
def evalConst : LExpr → Except Unit Value
  | .lit v => Except.ok v
  | .nonconst _ _ => Except.error ()
  | .orE l r => do
      let lv ← evalConst l
      if lv.toBoolean then pure lv else evalConst r
  | .andE l r => do
      let lv ← evalConst l
      if lv.toBoolean then evalConst r else pure lv

/-- The `constant()` predicate: `compiledLiteral.constant` returns true
(compiler_expr.go:831-833), the base returns false
(compiler_expr.go:275-277), and `compiledLogicalOr.constant` /
`compiledLogicalAnd.constant` (compiler_expr.go:1597-1610,
1639-1653) evaluate a constant left operand and demand a constant
right operand only when the left does not short-circuit (an exception
while evaluating the left also makes the node constant). -/
def LExpr.constant : LExpr → Bool
  | .lit _ => true
  | .nonconst _ _ => false
  | .orE l r =>
      if l.constant then
        match evalConst l with
        | Except.ok v => if v.toBoolean then true else r.constant
        | Except.error _ => true
      else false
  | .andE l r =>
      if l.constant then
        match evalConst l with
        | Except.ok v => if !v.toBoolean then true else r.constant
        | Except.error _ => true
      else false

/-- Translation of `compiler.emitConst` (compiler_expr.go:1444-1453): push the folded
value (when wanted), or re-emit the captured exception as a throw
(`compiler.emitThrow`, abstracted as the single instruction
`throwConst`). -/
def emitConstCode (e : LExpr) (putOnStack : Bool) : List Instr :=
  match evalConst e with
  | Except.ok v => if putOnStack then [Instr.loadVal v] else []
  | Except.error _ => [Instr.throwConst]

/-- Getter emission for the logical fragment.
`compiledLogicalOr.emitGetter` (compiler_expr.go:1612-1637): constant
left is folded — a falsy value falls through to `emitExpr(right)`, a
truthy one just pushes the value (only when wanted); the non-constant
path emits left, a `jeq1` over `pop` + right, and a final `pop` when
the value is not wanted.  `compiledLogicalAnd.emitGetter`
(compiler_expr.go:1655-1679) is symmetric with `jneq1`, except that a
falsy constant left pushes the value unconditionally.  The calls to
`compiler.emitExpr` (compiler_expr.go:1455-1461) are inlined as
`if constant then emitConstCode else emitGetter`; in the `||` case the
left is emitted through `emitExpr` but is non-constant on that path,
so its emission reduces to its own `emitGetter`. -/
def LExpr.emitGetter : LExpr → Bool → List Instr
  | .lit v, put => if put then [Instr.loadVal v] else []
  | .nonconst gT gF, put => if put then gT else gF
  | .orE l r, put =>
      if l.constant then
        match evalConst l with
        | Except.ok v =>
            if !v.toBoolean then
              if r.constant then emitConstCode r put else r.emitGetter put
            else
              if put then [Instr.loadVal v] else []
        | Except.error _ => [Instr.throwConst]
      else
        let rc := if r.constant then emitConstCode r true else r.emitGetter true
        l.emitGetter true ++ [Instr.jeq1 (2 + rc.length), Instr.pop] ++ rc ++
          (if put then [] else [Instr.pop])
  | .andE l r, put =>
      if l.constant then
        match evalConst l with
        | Except.ok v =>
            if !v.toBoolean then [Instr.loadVal v]
            else
              if r.constant then emitConstCode r put else r.emitGetter put
        | Except.error _ => [Instr.throwConst]
      else
        let rc := if r.constant then emitConstCode r true else r.emitGetter true
        l.emitGetter true ++ [Instr.jneq1 (2 + rc.length), Instr.pop] ++ rc ++
          (if put then [] else [Instr.pop])

/-- Translation of `compiler.emitExpr` (compiler_expr.go:1455-1461). -/
def emitExpr (e : LExpr) (putOnStack : Bool) : List Instr :=
  if e.constant then emitConstCode e putOnStack else e.emitGetter putOnStack

/-! ## C3: advertised `length` of a function literal
(compiler_expr.go:953-997, 1260-1268) -/

/-- The `Target` of one entry of an `ast.ParameterList`. -/
inductive ParamTarget where
  | ident (name : String)
  | pattern
  deriving DecidableEq, Repr

/-- One formal parameter: its binding target and whether it carries a
default initializer (`item.Initializer != nil`). -/
structure Param where
  target : ParamTarget
  hasInitializer : Bool
  deriving DecidableEq, Repr

/-- State threaded through the first parameter loop of
`compiledFunctionLiteral.emitGetter`. -/
structure ParamLoopState where
  hasPatterns : Bool
  hasInits : Bool
  /-- whether `firstDupIdx >= 0`. -/
  firstDup : Bool
  length : Nat
  /-- names bound so far, for the `bindNameShadow` uniqueness result.
  `scope.bindNameShadow` lives outside the given source
  (`compiler.go`); modelled from the spec (§4.7 step 5): it binds the
  name and reports it as non-unique iff the name was already bound. -/
  bound : List String
  deriving DecidableEq, Repr

/-- One iteration of the first parameter loop
(compiler_expr.go:963-997).  The strict-mode identifier-name checks of
`compileParameterBindingIdentifier` (`checkIdentifierName`,
`checkIdentifierLName`, outside the given source) can only throw and
never alter the counters, so they are omitted. -/
def paramLoopStep (strict strictDirective isArrow isMethod : Bool)
    (st : ParamLoopState) (item : Param) : Except String ParamLoopState := do
  let st ←
    match item.target with
    | ParamTarget.ident name =>
        let unique := ¬ name ∈ st.bound
        pure { st with
          firstDup := st.firstDup || !unique,
          bound := name :: st.bound }
    | ParamTarget.pattern =>
        pure { st with hasPatterns := true }
  let st := if item.hasInitializer then { st with hasInits := true } else st
  if st.firstDup &&
      (st.hasPatterns || st.hasInits || strict || isArrow || isMethod) then
    Except.error "Duplicate parameter name not allowed in this context"
  else if (st.hasPatterns || st.hasInits) && strictDirective then
    Except.error
      "Illegal 'use strict' directive in function with non-simple parameter list"
  else
    pure (if !st.hasInits then { st with length := st.length + 1 } else st)

/-- The first parameter loop, folded over the parameter list. -/
def paramLoop (strict strictDirective isArrow isMethod : Bool)
    (st : ParamLoopState) : List Param → Except String ParamLoopState
  | [] => Except.ok st
  | item :: rest => do
      let st ← paramLoopStep strict strictDirective isArrow isMethod st item
      paramLoop strict strictDirective isArrow isMethod st rest

/-- The parameter analysis of `compiledFunctionLiteral.emitGetter`:
`hasPatterns` starts true when a rest element is present
(compiler_expr.go:958-960), everything else starts zeroed.  `strict`
is the function scope's strictness after merging an inherited strict
mode with the body's directive (compiler_expr.go:949-951);
`strictDirective` is whether the body itself carries a
`"use strict"` directive (`e.strict != nil`). -/
def analyseParams (strict strictDirective isArrow isMethod hasRest : Bool)
    (params : List Param) : Except String ParamLoopState :=
  paramLoop strict strictDirective isArrow isMethod
    { hasPatterns := hasRest, hasInits := false, firstDup := false,
      length := 0, bound := [] } params

/-- The function-creating instruction chosen at
compiler_expr.go:1260-1268, carrying the advertised `length`. -/
inductive NewFuncInstr where
  | newFunc (length : Nat)
  | newMethod (length : Nat)
  | newArrowFunc (length : Nat)
  deriving DecidableEq, Repr

/-- Instruction selection of compiler_expr.go:1260-1268. -/
def newFuncInstrFor (isArrow isMethod : Bool) (length : Nat) : NewFuncInstr :=
  if isArrow then NewFuncInstr.newArrowFunc length
  else if isMethod then NewFuncInstr.newMethod length
  else NewFuncInstr.newFunc length

/-- The `length` recorded in the chosen instruction. -/
def NewFuncInstr.lengthOf : NewFuncInstr → Nat
  | .newFunc n => n
  | .newMethod n => n
  | .newArrowFunc n => n

/-- Formalisation of claim C3's words: the number of formal parameters
before the first one that has a default initializer or a destructuring
pattern target. -/
def specFunctionLength (params : List Param) : Nat :=
  (params.takeWhile (fun p =>
    !p.hasInitializer &&
      match p.target with
      | ParamTarget.ident _ => true
      | ParamTarget.pattern => false)).length

/-- What the code actually computes: the number of parameters before
the first one that has a default initializer (pattern targets without
initializers are counted). -/
def codeFunctionLength (params : List Param) : Nat :=
  (params.takeWhile (fun p => !p.hasInitializer)).length

/-! ## C4 / C9: object literals (compiler_expr.go:1778-1873) -/

/-- The `ast.PropertyKeyed.Kind` enumeration. -/
inductive PropKind where
  | value
  | method
  | getter
  | setter
  deriving DecidableEq, Repr

/-- The key of a keyed property, as the compiler sees it after
`compileExpression(prop.Key)`: either a `compiledLiteral` (identifier,
string or number keys — also when they appear inside computed
brackets) carrying the key string, or a non-literal expression with
its emitted getter code. -/
inductive ObjKey where
  | lit (key : String)
  | nonlit (code : List Instr)
  deriving DecidableEq, Repr

/-- One property of an object literal.  For keyed properties,
`computedFlag` is `prop.Computed` (syntactic `[...]` brackets),
`valueCode` the value's getter emission and `valueIsAnonFn` whether
the value is an anonymous `compiledFunctionLiteral` (chooses
`setElem1Named`).  Shorthand properties carry the identifier's getter
emission. -/
inductive ObjProp where
  | keyed (key : ObjKey) (computedFlag : Bool) (kind : PropKind)
      (valueCode : List Instr) (valueIsAnonFn : Bool)
  | short (name : String) (hasInitializer : Bool) (identCode : List Instr)
  | spread (code : List Instr)
  deriving DecidableEq, Repr

/-- Emission of one property, given the strictness of the current
scope and whether a non-computed `__proto__: value` has been seen;
returns the emitted code and the updated `hasProto` flag. -/
def emitObjectProp (strict hasProto : Bool) :
    ObjProp → Except String (List Instr × Bool)
  | ObjProp.keyed key computedFlag kind valueCode valueIsAnonFn =>
      match key with
      | ObjKey.nonlit keyCode =>
          -- `computed = true` path (compiler_expr.go:1806-1822)
          let kindInstr :=
            match kind with
            | PropKind.value | PropKind.method =>
                if valueIsAnonFn then Instr.setElem1Named else Instr.setElem1
            | PropKind.getter => Instr.setPropGetter1
            | PropKind.setter => Instr.setPropSetter1
          Except.ok
            (keyCode ++ [Instr.toPropertyKey] ++ valueCode ++ [kindInstr],
             hasProto)
      | ObjKey.lit k =>
          -- string-keyed fast path (compiler_expr.go:1823-1852)
          let isProto := k == "__proto__" && !computedFlag
          if isProto && hasProto then
            Except.error
              "Duplicate __proto__ fields are not allowed in object literals"
          else
            let kindInstr :=
              match kind with
              | PropKind.value =>
                  if isProto then Instr.setProto else Instr.setProp1 k
              | PropKind.method => Instr.setProp1 k
              | PropKind.getter => Instr.setPropGetter k
              | PropKind.setter => Instr.setPropSetter k
            Except.ok (valueCode ++ [kindInstr], hasProto || isProto)
  | ObjProp.short name hasInitializer identCode =>
      -- compiler_expr.go:1853-1862
      if hasInitializer then
        Except.error "Invalid shorthand property initializer"
      else if strict && name == "let" then
        Except.error "'let' cannot be used as a shorthand property in strict mode"
      else
        Except.ok (identCode ++ [Instr.setProp1 name], hasProto)
  | ObjProp.spread code =>
      Except.ok (code ++ [Instr.copySpread], hasProto)

/-- The property loop of `compiledObjectLiteral.emitGetter`. -/
def emitObjectProps (strict : Bool) (hasProto : Bool) :
    List ObjProp → Except String (List Instr)
  | [] => Except.ok []
  | p :: rest => do
      let (code, hasProto) ← emitObjectProp strict hasProto p
      let tail ← emitObjectProps strict hasProto rest
      pure (code ++ tail)

/-- Translation of `compiledObjectLiteral.emitGetter` (compiler_expr.go:1778-1873):
`NewObject`, the properties in order, a trailing `pop` when the value
is not wanted. -/
def compiledObjectLiteralEmitGetter (strict : Bool) (props : List ObjProp)
    (putOnStack : Bool) : Except String (List Instr) := do
  let body ← emitObjectProps strict false props
  pure (Instr.newObject :: body ++ (if putOnStack then [] else [Instr.pop]))

/-- Keyed properties that count toward the `__proto__` limit in this
code: a literal key `__proto__` outside computed brackets, regardless
of the property kind. -/
def countsAsProto : ObjProp → Bool
  | ObjProp.keyed (ObjKey.lit k) computedFlag _ _ _ =>
      k == "__proto__" && !computedFlag
  | _ => false

/-- Properties whose emission can fail for a reason other than the
`__proto__` limit (shorthand initializers; strict shorthand `let`). -/
def localOk (strict : Bool) : ObjProp → Bool
  | ObjProp.short name hasInitializer _ =>
      !hasInitializer && !(strict && name == "let")
  | _ => true

/-! ## C6: direct-`eval` detection (compiler_expr.go:1960-2013) -/

/-- The scope fields read or written by the direct-`eval` walk.  The
`scope` type itself lives in `compiler.go` (outside the given source);
this structure carries exactly the fields
`compiledCallExpr.emitGetter` touches.  `varScope` is the Go field
`variable` (a Lean keyword). -/
structure Scope where
  function : Bool
  arrow : Bool
  varScope : Bool
  strict : Bool
  dynamic : Bool
  dynLookup : Bool
  thisNeeded : Bool
  argsNeeded : Bool
  deriving DecidableEq, Repr

/-- The ancestor-scope walk performed when the callee name is `eval`
(compiler_expr.go:1972-1985).  The scope chain is given innermost
first; `foundFunc`/`foundVar` are the loop's two accumulators. -/
def evalScopeWalk (foundFunc foundVar : Bool) : List Scope → List Scope
  | [] => []
  | sc :: rest =>
      let hitFunc := !foundFunc && sc.function && !sc.arrow
      let sc1 :=
        if hitFunc then { sc with thisNeeded := true, argsNeeded := true }
        else sc
      let hitVar := !foundVar && (sc.varScope || sc.function)
      let sc2 := if hitVar && !sc.strict then { sc1 with dynamic := true } else sc1
      let sc3 := { sc2 with dynLookup := true }
      sc3 :: evalScopeWalk (foundFunc || hitFunc) (foundVar || hitVar) rest

/-- Tail of `compiledCallExpr.emitGetter` after callee and argument
emission (compiler_expr.go:1971-2012): when the callee identifier is
literally `eval`, run the scope walk and emit a `CallEval` variant;
otherwise emit `Call`/`CallVariadic`.  Returns the updated scope chain
and the emitted instructions. -/
def compiledCallExprEmitTail (calleeName : String) (strict isVariadic : Bool)
    (nargs : Nat) (scopes : List Scope) (putOnStack : Bool) :
    List Scope × List Instr :=
  if calleeName == "eval" then
    (evalScopeWalk false false scopes,
      (if strict then
        if isVariadic then [Instr.callEvalVariadicStrict]
        else [Instr.callEvalStrict nargs]
      else
        if isVariadic then [Instr.callEvalVariadic]
        else [Instr.callEval nargs]) ++
      (if isVariadic then [Instr.endVariadic] else []) ++
      (if putOnStack then [] else [Instr.pop]))
  else
    (scopes,
      (if isVariadic then [Instr.callVariadic] else [Instr.call nargs]) ++
      (if isVariadic then [Instr.endVariadic] else []) ++
      (if putOnStack then [] else [Instr.pop]))

/-- The walk's effect on one scope, phrased the way the claim states
it: `thisNeeded`/`argsNeeded` forced on the nearest non-arrow function
scope, `dynamic` forced on the nearest variable-or-function scope
unless it is strict, `dynLookup` forced everywhere.  `funcIdx` and
`varIdx` are the positions of those nearest scopes (`none` when
already found before the walk started). -/
def scopeWalkSpec (funcIdx varIdx : Option Nat) (k : Nat) (sc : Scope) : Scope :=
  { sc with
    thisNeeded := sc.thisNeeded || decide (funcIdx = some k),
    argsNeeded := sc.argsNeeded || decide (funcIdx = some k),
    dynamic := sc.dynamic || (decide (varIdx = some k) && !sc.strict),
    dynLookup := true }

/-- Position of the nearest non-arrow function scope, masked by the
`foundFunc` accumulator. -/
def firstFuncIdx (foundFunc : Bool) (scopes : List Scope) : Option Nat :=
  if foundFunc then none
  else scopes.findIdx? (fun sc => sc.function && !sc.arrow)

/-- Position of the nearest variable-or-function scope, masked by the
`foundVar` accumulator. -/
def firstVarIdx (foundVar : Bool) (scopes : List Scope) : Option Nat :=
  if foundVar then none
  else scopes.findIdx? (fun sc => sc.varScope || sc.function)

/-! ## C8: source-map accumulation (compiler_expr.go:304-308, 1243-1250) -/

/-- A `srcMapItem`. -/
structure SrcMapItem where
  pc : Int
  srcPos : Int
  deriving DecidableEq, Repr

/-- The parts of a `Program` the source-map claims observe: the length
of the instruction vector and the source map. -/
structure ProgState where
  codeLen : Nat
  srcMap : List SrcMapItem
  deriving DecidableEq, Repr

/-- Appending one instruction to `Program.code`. -/
def emitInstr (p : ProgState) : ProgState :=
  { p with codeLen := p.codeLen + 1 }

/-- Translation of `baseCompiledExpr.addSrcMap` (compiler_expr.go:304-308): when
`offset > 0`, append `(len(code), offset)`. -/
def addSrcMap (offset : Int) (p : ProgState) : ProgState :=
  if 0 < offset then
    { p with srcMap := p.srcMap ++ [⟨(p.codeLen : Int), offset⟩] }
  else p

/-- The two operations any emission path applies to the current
program's source map: appending instructions and `addSrcMap`. -/
inductive EmitOp where
  | emit
  | srcMap (offset : Int)
  deriving DecidableEq, Repr

/-- Running a sequence of emission operations. -/
def runEmitOps : List EmitOp → ProgState → ProgState
  | [], p => p
  | EmitOp.emit :: ops, p => runEmitOps ops (emitInstr p)
  | EmitOp.srcMap off :: ops, p => runEmitOps ops (addSrcMap off p)

/-- The preamble trim of `compiledFunctionLiteral.emitGetter`
(compiler_expr.go:1243-1250): drop `delta` instructions from the front
of the code and subtract `delta` from every recorded pc. -/
def trimPreamble (delta : Nat) (p : ProgState) : ProgState :=
  { codeLen := p.codeLen - delta,
    srcMap := p.srcMap.map (fun it => { it with pc := it.pc - (delta : Int) }) }

/-- Non-decreasing pc order of a source map. -/
def srcMapSorted (l : List SrcMapItem) : Prop :=
  List.Chain' (fun a b => a.pc ≤ b.pc) l

instance srcMapSortedDecidable (l : List SrcMapItem) :
    Decidable (srcMapSorted l) := by
  unfold srcMapSorted; infer_instance

/-- The invariant the emission operations preserve: the source map is
sorted and every recorded pc is at most the current code length. -/
def srcMapInv (p : ProgState) : Prop :=
  srcMapSorted p.srcMap ∧ ∀ it ∈ p.srcMap, it.pc ≤ (p.codeLen : Int)

instance srcMapInvDecidable (p : ProgState) : Decidable (srcMapInv p) := by
  unfold srcMapInv; infer_instance

/-! ## Theorems -/

/-- C1 counterexample: `compileMetaProperty` does **not** throw on
meta-property combinations other than `new.target` — `import.meta`
and `new.foo` both compile to the `LoadNewTarget` node, refuting the
claim that any combination other than `new.target` is a syntax
error. -/
theorem c1_meta_property_counterexample :
    compileMetaProperty "import" "meta" = Except.ok MetaResult.newTarget ∧
    compileMetaProperty "new" "foo" = Except.ok MetaResult.newTarget := by
  exact ⟨rfl, rfl⟩

/-- C1 (amended): `compileMetaProperty` returns the `LoadNewTarget`
node whenever the meta name is `new` **or** the property name is not
`target`; it throws the `Unsupported meta property` syntax error only
when the meta name differs from `new` and the property name is
`target`.  `new.target` itself therefore emits `LoadNewTarget`. -/
theorem c1_meta_property :
    (∀ m p : String,
      compileMetaProperty m p =
        if m = "new" ∨ p ≠ "target" then Except.ok MetaResult.newTarget
        else Except.error ("Unsupported meta property: " ++ m ++ "." ++ p)) ∧
    (∀ put : Bool,
      newTargetEmitGetter put = if put then [Instr.loadNewTarget] else []) := by
  refine ⟨fun m p => ?_, fun _ => rfl⟩
  by_cases h1 : m = "new"
  · simp [compileMetaProperty, h1]
  · by_cases h2 : p = "target"
    · simp [compileMetaProperty, h1, h2]
    · simp [compileMetaProperty, h1, h2]

/-- C2 counterexample: for a binary expression (a non-reference), the
node returned by `deleteExpr()` emits only `push true` — it does not
evaluate the operand for its side effects first, refuting the claimed
default behaviour. -/
theorem c2_delete_counterexample :
    ¬ ((DExpr.binaryE [Instr.sub_ 0] [Instr.sub_ 1] BinOp.add).deleteExpr.emitGetter
          true =
        (DExpr.binaryE [Instr.sub_ 0] [Instr.sub_ 1] BinOp.add).emitGetter false ++
          [Instr.loadVal (Value.bool true)]) := by
  decide

/-- C2 (amended): only a call expression's `deleteExpr()` returns a
node that evaluates the operand for its side effects and then pushes
`true`; every other non-reference expression falls back to
`baseCompiledExpr.deleteExpr`, whose node pushes the constant `true`
without evaluating the operand at all. -/
theorem c2_delete_nonreference :
    (∀ (gT gF : List Instr) (put : Bool),
      (DExpr.callE gT gF).deleteExpr.emitGetter put =
        gF ++ (if put then [Instr.loadVal (Value.bool true)] else [])) ∧
    (∀ (l r : List Instr) (op : BinOp) (put : Bool),
      (DExpr.binaryE l r op).deleteExpr.emitGetter put =
        if put then [Instr.loadVal (Value.bool true)] else []) ∧
    (∀ (v : Value) (put : Bool),
      (DExpr.litE v).deleteExpr.emitGetter put =
        if put then [Instr.loadVal (Value.bool true)] else []) := by
  exact ⟨fun _ _ _ => rfl, fun _ _ _ _ => rfl, fun _ _ => rfl⟩

/-- C7: `compiledIdentifierExpr.deleteExpr` throws in a strict scope;
otherwise it returns the `DeleteGlobal` node when no binding is found
under `noDynamics`, the `DeleteVar` node when no binding is found with
possible dynamic lookup, and a constant-`false` literal whenever a
binding exists; the three result nodes emit exactly the stated
instructions. -/
theorem c7_identifier_delete :
    ∀ (strict bindingFound noDynamics : Bool) (name : String) (put : Bool),
      compiledIdentifierExprDeleteExpr strict bindingFound noDynamics name =
        (if strict then
          Except.error "Delete of an unqualified identifier in strict mode"
        else if bindingFound then Except.ok IdentDeleteNode.litFalse
        else if noDynamics then Except.ok (IdentDeleteNode.delGlobal name)
        else Except.ok (IdentDeleteNode.delVar name)) ∧
      (IdentDeleteNode.delGlobal name).emitGetter put =
        Instr.deleteGlobal name :: (if put then [] else [Instr.pop]) ∧
      (IdentDeleteNode.delVar name).emitGetter put =
        Instr.deleteVar name :: (if put then [] else [Instr.pop]) ∧
      IdentDeleteNode.litFalse.emitGetter put =
        (if put then [Instr.loadVal (Value.bool false)] else []) := by
  intro strict bindingFound noDynamics name put
  refine ⟨?_, rfl, rfl, rfl⟩
  cases strict <;> cases bindingFound <;> cases noDynamics <;> rfl

/-- C10: an object or array pattern compiled in r-value position emits
only `loadUndef` when the value is wanted and nothing at all
otherwise, regardless of the pattern's contents — no sub-expression
code and no error. -/
theorem c10_pattern_rvalue :
    ∀ (pat : AssignmentPattern),
      assignmentPatternEmitGetter pat true = [Instr.loadUndef] ∧
      assignmentPatternEmitGetter pat false = [] := by
  intro pat
  cases pat <;> exact ⟨rfl, rfl⟩

/-- C3 counterexample: a parameter list `([x], b)` — a pattern target
without an initializer followed by a plain identifier — compiles with
advertised length 2, while the claim's rule (count up to the first
default **or pattern**) predicts 0. -/
theorem c3_length_counterexample :
    analyseParams false false false false false
      [⟨ParamTarget.pattern, false⟩, ⟨ParamTarget.ident "b", false⟩] =
      Except.ok ⟨true, false, false, 2, ["b"]⟩ ∧
    specFunctionLength
      [⟨ParamTarget.pattern, false⟩, ⟨ParamTarget.ident "b", false⟩] = 0 ∧
    codeFunctionLength
      [⟨ParamTarget.pattern, false⟩, ⟨ParamTarget.ident "b", false⟩] = 2 := by
  exact ⟨rfl, rfl, rfl⟩

/-- C5 counterexample: `false || x` with non-constant `x` — the left
operand is constant but `constant()` of the `||` node returns false,
refuting "constant iff the left operand is constant" (the falsy
constant left falls through to the right operand's constancy). -/
theorem c5_constant_counterexample :
    (LExpr.lit (Value.bool false)).constant = true ∧
    (LExpr.orE (LExpr.lit (Value.bool false))
        (LExpr.nonconst [Instr.sub_ 0] [Instr.sub_ 0])).constant = false ∧
    (LExpr.andE (LExpr.lit (Value.bool true))
        (LExpr.nonconst [Instr.sub_ 0] [Instr.sub_ 0])).constant = false := by
  exact ⟨rfl, rfl, rfl⟩

/-- A successful `paramLoopStep` ors the item's initializer flag into
`hasInits` and bumps `length` exactly when no initializer has been
seen yet. -/
theorem paramLoopStep_ok (strict sd ia im : Bool) (st : ParamLoopState)
    (item : Param) (st' : ParamLoopState)
    (h : paramLoopStep strict sd ia im st item = Except.ok st') :
    st'.hasInits = (st.hasInits || item.hasInitializer) ∧
    st'.length =
      st.length + (if st.hasInits || item.hasInitializer then 0 else 1) := by
  obtain ⟨tgt, hinit⟩ := item
  cases tgt <;>
    · simp only [paramLoopStep, bind, Except.bind, pure, Except.pure] at h
      split_ifs at h
      all_goals
        first
          | exact (Except.noConfusion h)
          | ( injection h with h
              subst h
              simp_all )

/-- The parameter loop, run to success, adds to `length` the number of
leading parameters without initializers (nothing once an initializer
has been seen). -/
theorem paramLoop_length (strict sd ia im : Bool) :
    ∀ (params : List Param) (st st' : ParamLoopState),
      paramLoop strict sd ia im st params = Except.ok st' →
      st'.length = st.length +
        (if st.hasInits then 0
         else (params.takeWhile (fun p => !p.hasInitializer)).length) := by
  intro params
  induction params with
  | nil =>
      intro st st' h
      simp only [paramLoop, Except.ok.injEq] at h
      subst h
      simp
  | cons item rest ih =>
      intro st st' h
      simp only [paramLoop, bind, Except.bind] at h
      cases hstep : paramLoopStep strict sd ia im st item with
      | error e => rw [hstep] at h; exact absurd h (by simp)
      | ok st1 =>
          rw [hstep] at h
          obtain ⟨h1, h2⟩ := paramLoopStep_ok strict sd ia im st item st1 hstep
          have := ih st1 st' h
          rw [this, h1, h2, List.takeWhile]
          cases hi : st.hasInits <;> cases hinit : item.hasInitializer <;>
            (simp [hi, hinit]; try omega)

/-- C3 (amended): the advertised `length` recorded in the emitted
`NewFunc`/`NewMethod`/`NewArrowFunc` instruction equals the number of
formal parameters **before the first one that has a default
initializer**; a destructuring pattern target without an initializer
still counts toward the length. -/
theorem c3_function_length (strict sd ia im hasRest : Bool)
    (params : List Param) (st : ParamLoopState)
    (h : analyseParams strict sd ia im hasRest params = Except.ok st) :
    (newFuncInstrFor ia im st.length).lengthOf = codeFunctionLength params := by
  have hlen := paramLoop_length strict sd ia im params _ st h
  have hsel : (newFuncInstrFor ia im st.length).lengthOf = st.length := by
    cases ia <;> cases im <;> rfl
  rw [hsel, hlen]
  simp [codeFunctionLength]

/-- C3 witness: `function (a, b = 1) {}` — the analysis succeeds and
the recorded length is 1. -/
theorem c3_function_length_witness :
    (newFuncInstrFor false false
      (ParamLoopState.mk false true false 1 ["b", "a"]).length).lengthOf =
      codeFunctionLength
        [⟨ParamTarget.ident "a", false⟩, ⟨ParamTarget.ident "b", true⟩] :=
  c3_function_length false false false false false
    [⟨ParamTarget.ident "a", false⟩, ⟨ParamTarget.ident "b", true⟩]
    (ParamLoopState.mk false true false 1 ["b", "a"]) rfl

/-- C5 (amended): a `||`/`&&` node is constant iff its left operand is
constant and either the left's folded value short-circuits (truthy for
`||`, falsy for `&&`), or folding the left throws, or the right
operand is constant as well; and when the left is constant with a
truthy (`||`) / falsy (`&&`) value, the emitted code is independent of
the right operand — it only pushes the folded left value (for `&&`
even when the value is not wanted). -/
theorem c5_logical_constant :
    (∀ l r : LExpr,
      (LExpr.orE l r).constant =
        (l.constant &&
          match evalConst l with
          | Except.ok v => v.toBoolean || r.constant
          | Except.error _ => true)) ∧
    (∀ l r : LExpr,
      (LExpr.andE l r).constant =
        (l.constant &&
          match evalConst l with
          | Except.ok v => !v.toBoolean || r.constant
          | Except.error _ => true)) ∧
    (∀ (l r : LExpr) (put : Bool) (v : Value),
      l.constant = true → evalConst l = Except.ok v → v.toBoolean = true →
      (LExpr.orE l r).emitGetter put =
        (if put then [Instr.loadVal v] else [])) ∧
    (∀ (l r : LExpr) (put : Bool) (v : Value),
      l.constant = true → evalConst l = Except.ok v → v.toBoolean = false →
      (LExpr.andE l r).emitGetter put = [Instr.loadVal v]) := by
  refine ⟨fun l r => ?_, fun l r => ?_, fun l r put v hc he hb => ?_,
    fun l r put v hc he hb => ?_⟩
  · cases hc : l.constant with
    | false => simp [LExpr.constant, hc]
    | true =>
        cases he : evalConst l with
        | error e => simp [LExpr.constant, hc, he]
        | ok v => cases hb : v.toBoolean <;> simp [LExpr.constant, hc, he, hb]
  · cases hc : l.constant with
    | false => simp [LExpr.constant, hc]
    | true =>
        cases he : evalConst l with
        | error e => simp [LExpr.constant, hc, he]
        | ok v => cases hb : v.toBoolean <;> simp [LExpr.constant, hc, he, hb]
  · simp [LExpr.emitGetter, hc, he, hb]
  · simp [LExpr.emitGetter, hc, he, hb]

/-- C5 witness: `true || x` and `false && x` with non-constant `x` —
the emitted code is exactly the pushed constant, with no trace of
`x`'s code. -/
theorem c5_logical_constant_witness :
    (LExpr.orE (LExpr.lit (Value.bool true))
        (LExpr.nonconst [Instr.sub_ 5] [Instr.sub_ 6])).emitGetter true =
      [Instr.loadVal (Value.bool true)] ∧
    (LExpr.andE (LExpr.lit (Value.bool false))
        (LExpr.nonconst [Instr.sub_ 5] [Instr.sub_ 6])).emitGetter false =
      [Instr.loadVal (Value.bool false)] :=
  ⟨c5_logical_constant.2.2.1 (LExpr.lit (Value.bool true))
      (LExpr.nonconst [Instr.sub_ 5] [Instr.sub_ 6]) true (Value.bool true)
      rfl rfl rfl,
    c5_logical_constant.2.2.2 (LExpr.lit (Value.bool false))
      (LExpr.nonconst [Instr.sub_ 5] [Instr.sub_ 6]) false (Value.bool false)
      rfl rfl rfl⟩

/-- Success of the full literal emission reduces to success of the
property loop. -/
theorem compiledObjectLiteralEmitGetter_isOk (strict : Bool)
    (props : List ObjProp) (put : Bool) :
    (compiledObjectLiteralEmitGetter strict props put).isOk =
      (emitObjectProps strict false props).isOk := by
  unfold compiledObjectLiteralEmitGetter
  cases emitObjectProps strict false props <;> rfl

/-- Unfolding the property loop when the head property emits
successfully. -/
theorem emitObjectProps_cons_ok (strict hp hp' : Bool) (p : ObjProp)
    (rest : List ObjProp) (code : List Instr)
    (h : emitObjectProp strict hp p = Except.ok (code, hp')) :
    (emitObjectProps strict hp (p :: rest)).isOk =
      (emitObjectProps strict hp' rest).isOk := by
  simp only [emitObjectProps, bind, Except.bind, h]
  cases emitObjectProps strict hp' rest <;> rfl

/-- Unfolding the property loop when the head property throws. -/
theorem emitObjectProps_cons_err (strict hp : Bool) (p : ObjProp)
    (rest : List ObjProp) (e : String)
    (h : emitObjectProp strict hp p = Except.error e) :
    (emitObjectProps strict hp (p :: rest)).isOk = false := by
  simp only [emitObjectProps, bind, Except.bind, h]
  rfl

/-- A locally well-formed property can only throw when the
`__proto__` budget is already used and the property counts toward
it. -/
theorem emitObjectProp_err_cases (strict hp : Bool) (p : ObjProp) (e : String)
    (hloc : localOk strict p = true)
    (h : emitObjectProp strict hp p = Except.error e) :
    hp = true ∧ countsAsProto p = true := by
  cases p with
  | keyed key cf kind vc af =>
      cases key with
      | nonlit kc => simp [emitObjectProp] at h
      | lit k =>
          cases hk : (k == "__proto__") <;> cases cf <;> cases hp <;>
            simp_all [emitObjectProp, countsAsProto]
  | short name hasInit code =>
      simp only [localOk, Bool.and_eq_true, Bool.not_eq_true'] at hloc
      simp [emitObjectProp, hloc.1, hloc.2] at h
  | spread code => simp [emitObjectProp] at h

/-- A successful emission ors `countsAsProto` into the `hasProto`
flag, and can only have succeeded when the budget was not already
exhausted by a counting property. -/
theorem emitObjectProp_ok_cases (strict hp : Bool) (p : ObjProp)
    (code : List Instr) (hp' : Bool)
    (h : emitObjectProp strict hp p = Except.ok (code, hp')) :
    hp' = (hp || countsAsProto p) ∧ (hp && countsAsProto p) = false := by
  cases p with
  | keyed key cf kind vc af =>
      cases key with
      | nonlit kc => simp_all [emitObjectProp, countsAsProto]
      | lit k =>
          cases hk : (k == "__proto__") <;> cases cf <;> cases hp <;>
            simp_all [emitObjectProp, countsAsProto]
  | short name hasInit code =>
      cases hasInit <;> by_cases hlet : (strict && name == "let") = true <;>
        simp_all [emitObjectProp, countsAsProto]
  | spread code => simp_all [emitObjectProp, countsAsProto]

/-- The property loop succeeds iff the number of properties counting
toward the `__proto__` limit fits the budget left by the `hasProto`
flag, provided every property is locally well-formed. -/
theorem emitObjectProps_isOk_iff (strict : Bool) :
    ∀ (props : List ObjProp) (hp : Bool),
      (∀ p ∈ props, localOk strict p = true) →
      ((emitObjectProps strict hp props).isOk = true ↔
        props.countP countsAsProto ≤ (if hp then 0 else 1)) := by
  intro props
  induction props with
  | nil =>
      intro hp _
      simp [emitObjectProps, Except.isOk, Except.toBool]
  | cons p rest ih =>
      intro hp hloc
      have hlocp : localOk strict p = true := hloc p (by simp)
      have hlocr : ∀ q ∈ rest, localOk strict q = true :=
        fun q hq => hloc q (by simp [hq])
      cases hob : emitObjectProp strict hp p with
      | error e =>
          obtain ⟨hhp, hcp⟩ := emitObjectProp_err_cases strict hp p e hlocp hob
          rw [emitObjectProps_cons_err strict hp p rest e hob]
          simp [List.countP_cons, hcp, hhp]
      | ok pr =>
          obtain ⟨c, hpNext⟩ := pr
          obtain ⟨hflag, hand⟩ :=
            emitObjectProp_ok_cases strict hp p c hpNext hob
          rw [emitObjectProps_cons_ok strict hp hpNext p rest c hob, hflag,
            ih (hp || countsAsProto p) hlocr, List.countP_cons]
          cases hhp : hp <;> cases hcp : countsAsProto p <;> simp_all

/-- In a strict scope the loop rejects any shorthand property named
`let` (with or without initializer). -/
theorem emitObjectProps_strict_let (h : Bool) (code : List Instr) :
    ∀ (props : List ObjProp) (hp : Bool),
      ObjProp.short "let" h code ∈ props →
      (emitObjectProps true hp props).isOk = false := by
  intro props
  induction props with
  | nil => intro hp hmem; cases hmem
  | cons p rest ih =>
      intro hp hmem
      rcases List.mem_cons.mp hmem with hq | hq
      · subst hq
        cases h with
        | false =>
            exact emitObjectProps_cons_err true hp _ rest _ rfl
        | true =>
            exact emitObjectProps_cons_err true hp _ rest _ rfl
      · cases hob : emitObjectProp true hp p with
        | error e => exact emitObjectProps_cons_err true hp p rest e hob
        | ok pr =>
            obtain ⟨c, hp'⟩ := pr
            rw [emitObjectProps_cons_ok true hp hp' p rest c hob]
            exact ih hp' hq

/-- C4 counterexample: a non-computed **getter** named `__proto__`
followed by a non-computed `__proto__: value` property raises the
duplicate-`__proto__` syntax error — the getter counted toward the
limit, refuting the claim that only `__proto__: value` properties
count. -/
theorem c4_proto_counterexample :
    compiledObjectLiteralEmitGetter false
      [ObjProp.keyed (ObjKey.lit "__proto__") false PropKind.getter
          [Instr.sub_ 0] false,
        ObjProp.keyed (ObjKey.lit "__proto__") false PropKind.value
          [Instr.sub_ 1] false] true =
      Except.error "Duplicate __proto__ fields are not allowed in object literals" := by
  rfl

/-- C4 (amended): at most one non-computed property with literal key
`__proto__` is permitted in an object literal and a second one is a
SyntaxError, but **every** non-computed kind (value, getter, setter,
method) counts toward this limit, not just `__proto__: value`;
computed keys do not count.  In particular
`({__proto__: a, __proto__: b})` fails to compile and
`({["__proto__"]: a, __proto__: b})` compiles, as the claim states. -/
theorem c4_object_proto :
    (∀ (a b : List Instr) (strict put : Bool),
      compiledObjectLiteralEmitGetter strict
        [ObjProp.keyed (ObjKey.lit "__proto__") false PropKind.value a false,
          ObjProp.keyed (ObjKey.lit "__proto__") false PropKind.value b false]
        put =
        Except.error "Duplicate __proto__ fields are not allowed in object literals") ∧
    (∀ (a b : List Instr) (strict put : Bool),
      (compiledObjectLiteralEmitGetter strict
        [ObjProp.keyed (ObjKey.lit "__proto__") true PropKind.value a false,
          ObjProp.keyed (ObjKey.lit "__proto__") false PropKind.value b false]
        put).isOk = true) ∧
    (∀ (strict put : Bool) (props : List ObjProp),
      (∀ p ∈ props, localOk strict p = true) →
      ((compiledObjectLiteralEmitGetter strict props put).isOk = true ↔
        props.countP countsAsProto ≤ 1)) := by
  refine ⟨fun a b strict put => rfl, fun a b strict put => rfl,
    fun strict put props hloc => ?_⟩
  rw [compiledObjectLiteralEmitGetter_isOk]
  simpa using emitObjectProps_isOk_iff strict props false hloc

/-- C4 witness: a literal with one counted `__proto__` value property
and one computed-key `__proto__` property compiles. -/
theorem c4_object_proto_witness :
    (compiledObjectLiteralEmitGetter false
      [ObjProp.keyed (ObjKey.lit "__proto__") false PropKind.value
          [Instr.sub_ 2] false,
        ObjProp.keyed (ObjKey.lit "__proto__") true PropKind.value
          [Instr.sub_ 3] false] true).isOk = true ↔
      List.countP countsAsProto
        [ObjProp.keyed (ObjKey.lit "__proto__") false PropKind.value
            [Instr.sub_ 2] false,
          ObjProp.keyed (ObjKey.lit "__proto__") true PropKind.value
            [Instr.sub_ 3] false] ≤ 1 :=
  c4_object_proto.2.2 false true _ (by decide)

/-- C9: in a strict-mode scope, an object literal containing a
shorthand property named `let` fails to compile; with the `let`
shorthand alone the error is exactly
`'let' cannot be used as a shorthand property in strict mode`. -/
theorem c9_strict_let_shorthand :
    (compiledObjectLiteralEmitGetter true
        [ObjProp.short "let" false [Instr.sub_ 0]] true =
      Except.error "'let' cannot be used as a shorthand property in strict mode") ∧
    (∀ (props : List ObjProp) (put h : Bool) (code : List Instr),
      ObjProp.short "let" h code ∈ props →
      (compiledObjectLiteralEmitGetter true props put).isOk = false) := by
  refine ⟨rfl, fun props put h code hmem => ?_⟩
  rw [compiledObjectLiteralEmitGetter_isOk]
  exact emitObjectProps_strict_let h code props false hmem

/-- C9 witness: a strict object literal with a leading spread and a
`let` shorthand fails to compile. -/
theorem c9_strict_let_shorthand_witness :
    (compiledObjectLiteralEmitGetter true
      [ObjProp.spread [Instr.sub_ 4],
        ObjProp.short "let" false [Instr.sub_ 5]] false).isOk = false :=
  c9_strict_let_shorthand.2
    [ObjProp.spread [Instr.sub_ 4], ObjProp.short "let" false [Instr.sub_ 5]]
    false false [Instr.sub_ 5] (by simp)

/-- Appending one to every index in an option cannot produce index
zero. -/
theorem decide_map_succ_zero (o : Option Nat) :
    decide (o.map (· + 1) = some 0) = false := by
  cases o <;> simp

/-- Appending one to every index shifts index equality by one. -/
theorem decide_map_succ_succ (o : Option Nat) (k : Nat) :
    decide (o.map (· + 1) = some (k + 1)) = decide (o = some k) := by
  cases o <;> simp

/-- A `findIdx?` search started at one never reports index zero. -/
theorem findIdx?_one_ne_zero (p : Scope → Bool) (l : List Scope) :
    ¬ (List.findIdx? p l 1 = some 0) := by
  rw [show (1 : Nat) = 0 + 1 from rfl, List.findIdx?_succ]
  cases List.findIdx? p l 0 <;> simp

/-- A `findIdx?` search started at one reports `k + 1` exactly when the
search started at zero reports `k`. -/
theorem findIdx?_one_succ (p : Scope → Bool) (l : List Scope) (k : Nat) :
    (List.findIdx? p l 1 = some (k + 1)) ↔ (List.findIdx? p l 0 = some k) := by
  rw [show (1 : Nat) = 0 + 1 from rfl, List.findIdx?_succ]
  cases List.findIdx? p l 0 <;> simp

/-- Peeling one scope off the chain shifts the nearest-non-arrow-
function position by one, with the `foundFunc` accumulator absorbing a
head hit. -/
theorem firstFuncIdx_shift (ff : Bool) (sc : Scope) (rest : List Scope)
    (k : Nat) :
    decide (firstFuncIdx (ff || (!ff && sc.function && !sc.arrow)) rest =
        some k) =
      decide (firstFuncIdx ff (sc :: rest) = some (k + 1)) := by
  cases ff with
  | true => simp [firstFuncIdx]
  | false =>
      cases hpf : (sc.function && !sc.arrow) with
      | true =>
          have hm : (false || (!false && sc.function && !sc.arrow)) = true := by
            simp [← Bool.and_assoc, hpf]
          rw [hm]
          simp [firstFuncIdx, List.findIdx?_cons, hpf]
      | false =>
          have hm : (false || (!false && sc.function && !sc.arrow)) = false := by
            simp [← Bool.and_assoc, hpf]
          rw [hm]
          simp [firstFuncIdx, List.findIdx?_cons, hpf, findIdx?_one_succ]

/-- Peeling one scope off the chain shifts the nearest
variable-or-function position by one, with the `foundVar` accumulator
absorbing a head hit. -/
theorem firstVarIdx_shift (fv : Bool) (sc : Scope) (rest : List Scope)
    (k : Nat) :
    decide (firstVarIdx (fv || (!fv && (sc.varScope || sc.function))) rest =
        some k) =
      decide (firstVarIdx fv (sc :: rest) = some (k + 1)) := by
  cases fv with
  | true => simp [firstVarIdx]
  | false =>
      cases hpv : (sc.varScope || sc.function) with
      | true => simp [firstVarIdx, List.findIdx?_cons, hpv]
      | false => simp [firstVarIdx, List.findIdx?_cons, hpv, findIdx?_one_succ]

/-- Pointwise characterisation of the direct-`eval` scope walk, for
arbitrary accumulator values. -/
theorem evalScopeWalk_getElem (chain : List Scope) :
    ∀ (ff fv : Bool) (k : Nat),
      (evalScopeWalk ff fv chain)[k]? =
        (chain[k]?).map
          (scopeWalkSpec (firstFuncIdx ff chain) (firstVarIdx fv chain) k) := by
  induction chain with
  | nil => intro ff fv k; simp [evalScopeWalk]
  | cons sc rest ih =>
      intro ff fv k
      cases k with
      | zero =>
          obtain ⟨f, a, vb, st, dy, dl, tn, an⟩ := sc
          cases ff <;> cases fv <;> cases f <;> cases a <;> cases vb <;>
            cases st <;>
            simp [evalScopeWalk, scopeWalkSpec, firstFuncIdx, firstVarIdx,
              List.findIdx?_cons, findIdx?_one_ne_zero]
      | succ k =>
          rw [show (evalScopeWalk ff fv (sc :: rest))[k + 1]? =
              (evalScopeWalk (ff || (!ff && sc.function && !sc.arrow))
                (fv || (!fv && (sc.varScope || sc.function))) rest)[k]? from by
            simp [evalScopeWalk], ih, List.getElem?_cons_succ]
          cases hx : rest[k]? with
          | none => simp
          | some x =>
              simp only [Option.map_some', Option.some.injEq]
              have h1 := firstFuncIdx_shift ff sc rest k
              have h2 := firstVarIdx_shift fv sc rest k
              simp only [scopeWalkSpec, h1, h2]

/-- C6: when a call's callee identifier is literally `eval`, the
emitted tail runs the ancestor-scope walk — which sets `thisNeeded`
and `argsNeeded` on the nearest non-arrow function scope, sets
`dynamic` on the nearest variable-or-function scope unless that scope
is strict, sets `dynLookup` on every ancestor scope, and changes
nothing else — and emits a `CallEval[Strict]`/`CallEvalVariadic[Strict]`
instruction; any other callee name leaves the scopes untouched and
emits `Call`/`CallVariadic`. -/
theorem c6_direct_eval :
    (∀ (scopes : List Scope) (k : Nat),
      (evalScopeWalk false false scopes)[k]? =
        (scopes[k]?).map
          (scopeWalkSpec
            (scopes.findIdx? (fun sc => sc.function && !sc.arrow))
            (scopes.findIdx? (fun sc => sc.varScope || sc.function)) k)) ∧
    (∀ (scopes : List Scope) (strict isVariadic put : Bool) (nargs : Nat),
      compiledCallExprEmitTail "eval" strict isVariadic nargs scopes put =
        (evalScopeWalk false false scopes,
          (if strict then
            if isVariadic then [Instr.callEvalVariadicStrict]
            else [Instr.callEvalStrict nargs]
          else
            if isVariadic then [Instr.callEvalVariadic]
            else [Instr.callEval nargs]) ++
          (if isVariadic then [Instr.endVariadic] else []) ++
          (if put then [] else [Instr.pop]))) ∧
    (∀ (name : String) (scopes : List Scope)
        (strict isVariadic put : Bool) (nargs : Nat),
      name ≠ "eval" →
      compiledCallExprEmitTail name strict isVariadic nargs scopes put =
        (scopes,
          (if isVariadic then [Instr.callVariadic] else [Instr.call nargs]) ++
          (if isVariadic then [Instr.endVariadic] else []) ++
          (if put then [] else [Instr.pop]))) := by
  refine ⟨fun scopes k => ?_, fun scopes strict isVariadic put nargs => rfl,
    fun name scopes strict isVariadic put nargs hne => ?_⟩
  · have := evalScopeWalk_getElem scopes false false k
    simpa [firstFuncIdx, firstVarIdx] using this
  · simp [compiledCallExprEmitTail, hne]

/-- C6 witness: a one-element chain holding a sloppy non-arrow
function scope — the walk marks it `thisNeeded`, `argsNeeded`,
`dynamic` and `dynLookup`, and a non-`eval` callee emits a plain
`Call`. -/
theorem c6_direct_eval_witness :
    (evalScopeWalk false false
        [Scope.mk true false false false false false false false])[0]? =
      ([Scope.mk true false false false false false false false][0]?).map
        (scopeWalkSpec
          ([Scope.mk true false false false false false false false].findIdx?
            (fun sc => sc.function && !sc.arrow))
          ([Scope.mk true false false false false false false false].findIdx?
            (fun sc => sc.varScope || sc.function)) 0) ∧
    compiledCallExprEmitTail "f" false false 2
        [Scope.mk true false false false false false false false] true =
      ([Scope.mk true false false false false false false false],
        [Instr.call 2]) :=
  ⟨c6_direct_eval.1 [Scope.mk true false false false false false false false] 0,
    c6_direct_eval.2.2 "f"
      [Scope.mk true false false false false false false false]
      false false true 2 (by decide)⟩

/-- Appending an element at least as large as everything in a sorted
source map keeps it sorted. -/
theorem srcMapSorted_append (x : SrcMapItem) :
    ∀ (l : List SrcMapItem), srcMapSorted l → (∀ it ∈ l, it.pc ≤ x.pc) →
      srcMapSorted (l ++ [x]) := by
  intro l
  induction l with
  | nil => intro _ _; simp [srcMapSorted]
  | cons a l ih =>
      intro hs hb
      rw [srcMapSorted, List.cons_append, List.chain'_cons']
      rw [srcMapSorted, List.chain'_cons'] at hs
      refine ⟨?_, ih hs.2 (fun it hit => hb it (List.mem_cons_of_mem a hit))⟩
      intro b hbmem
      cases l with
      | nil =>
          simp only [List.nil_append, List.head?_cons, Option.mem_def,
            Option.some.injEq] at hbmem
          subst hbmem
          exact hb a (by simp)
      | cons c l' =>
          simp only [List.cons_append, List.head?_cons, Option.mem_def,
            Option.some.injEq] at hbmem
          subst hbmem
          exact hs.1 c (by simp)

/-- Appending an instruction preserves the source-map invariant. -/
theorem srcMapInv_emitInstr (p : ProgState) (h : srcMapInv p) :
    srcMapInv (emitInstr p) := by
  obtain ⟨hs, hb⟩ := h
  refine ⟨hs, fun it hit => le_trans (hb it hit) ?_⟩
  exact_mod_cast Nat.le_succ p.codeLen

/-- The `addSrcMap` operation preserves the source-map invariant: the new entry's pc
is the current code length, which bounds every previous entry. -/
theorem srcMapInv_addSrcMap (off : Int) (p : ProgState) (h : srcMapInv p) :
    srcMapInv (addSrcMap off p) := by
  obtain ⟨hs, hb⟩ := h
  unfold addSrcMap
  split
  · refine ⟨srcMapSorted_append _ _ hs (fun it hit => hb it hit), ?_⟩
    intro it hit
    rcases List.mem_append.mp hit with hmem | hmem
    · exact hb it hmem
    · simp only [List.mem_singleton] at hmem
      subst hmem
      exact le_refl _
  · exact ⟨hs, hb⟩

/-- Any sequence of emissions preserves the source-map invariant. -/
theorem runEmitOps_inv :
    ∀ (ops : List EmitOp) (p : ProgState), srcMapInv p →
      srcMapInv (runEmitOps ops p) := by
  intro ops
  induction ops with
  | nil => intro p h; exact h
  | cons op rest ih =>
      intro p h
      cases op with
      | emit => exact ih _ (srcMapInv_emitInstr p h)
      | srcMap off => exact ih _ (srcMapInv_addSrcMap off p h)

/-- Subtracting the same delta from every pc preserves the sorted
order. -/
theorem srcMapSorted_trim (delta : Nat) (p : ProgState)
    (hs : srcMapSorted p.srcMap) :
    srcMapSorted ((trimPreamble delta p).srcMap) := by
  show srcMapSorted (p.srcMap.map _)
  rw [srcMapSorted, List.chain'_map]
  exact List.Chain'.imp (fun a b hab => sub_le_sub_right hab _) hs

/-- C8: `addSrcMap` appends an entry at the current code length exactly
when the offset is positive; under any sequence of instruction
emissions and `addSrcMap` calls starting from a program satisfying the
source-map invariant, the source map stays in non-decreasing pc order;
and the preamble trim subtracts the same delta from every recorded pc,
preserving that order. -/
theorem c8_srcmap_monotone :
    (∀ (off : Int) (q : ProgState),
      addSrcMap off q =
        if 0 < off then
          { q with srcMap := q.srcMap ++ [⟨(q.codeLen : Int), off⟩] }
        else q) ∧
    (∀ (ops : List EmitOp) (p : ProgState), srcMapInv p →
      srcMapSorted ((runEmitOps ops p).srcMap)) ∧
    (∀ (delta : Nat) (p : ProgState),
      (trimPreamble delta p).srcMap =
        p.srcMap.map (fun it => { it with pc := it.pc - (delta : Int) })) ∧
    (∀ (delta : Nat) (ops : List EmitOp) (p : ProgState), srcMapInv p →
      srcMapSorted ((trimPreamble delta (runEmitOps ops p)).srcMap)) := by
  refine ⟨fun off q => rfl, fun ops p h => (runEmitOps_inv ops p h).1,
    fun delta p => rfl, fun delta ops p h => ?_⟩
  exact srcMapSorted_trim delta _ (runEmitOps_inv ops p h).1

/-- C8 witness: emitting two instructions interleaved with two
`addSrcMap` calls from a fresh program yields a sorted source map,
also after trimming one preamble slot. -/
theorem c8_srcmap_monotone_witness :
    srcMapSorted ((runEmitOps
      [EmitOp.emit, EmitOp.srcMap 3, EmitOp.emit, EmitOp.srcMap 7]
      ⟨0, []⟩).srcMap) ∧
    srcMapSorted ((trimPreamble 1 (runEmitOps
      [EmitOp.emit, EmitOp.srcMap 3, EmitOp.emit, EmitOp.srcMap 7]
      ⟨0, []⟩)).srcMap) :=
  ⟨c8_srcmap_monotone.2.1
      [EmitOp.emit, EmitOp.srcMap 3, EmitOp.emit, EmitOp.srcMap 7]
      ⟨0, []⟩ (by decide),
    c8_srcmap_monotone.2.2.2 1
      [EmitOp.emit, EmitOp.srcMap 3, EmitOp.emit, EmitOp.srcMap 7]
      ⟨0, []⟩ (by decide)⟩

end GojaExpr
